import Mathlib

/-!
Verification of the ngx_node site-definition lifecycle engine
(`src/index.ts`): the configuration-text parser in `NginxServer.reload`,
the site-creation flow of the `newSiteButton` press handler, the
`enable`/`disable` toggles, and the registry ordering behaviour.

Strings are modelled as `List Char` (`String.data`); the three regular
expressions of `reload` are modelled by dedicated backtracking scanners
with exactly the JavaScript semantics of
  `/server_name\s+(.+);/`  (first match, capture),
  `/\s*listen\s+(\d+)/g`   (all matches, captures),
  `/root\s+(.+);/`         (first match, capture).
-/

set_option maxRecDepth 100000

namespace Ngx

/-- The character class of JavaScript `\s` (also the set `String.prototype.trim`
strips): tab, LF, VT, FF, CR, space, NBSP, the Unicode space separators,
LS, PS, NNBSP, MMSP, ideographic space and the BOM. -/
def isJsWs (c : Char) : Bool :=
  decide (c.toNat ∈ [9, 10, 11, 12, 13, 32, 160, 5760, 8192, 8193, 8194, 8195,
    8196, 8197, 8198, 8199, 8200, 8201, 8202, 8232, 8233, 8239, 8287, 12288, 65279])

/-- JavaScript line terminators: exactly the characters `.` does not match. -/
def isLineTerm (c : Char) : Bool :=
  decide (c.toNat ∈ [10, 13, 8232, 8233])

/-- The part of the input `.` can still consume: up to the first line terminator. -/
def lineOf (l : List Char) : List Char :=
  l.takeWhile (fun c => !isLineTerm c)

/-- The text before the last `;` of `L`, provided at least one character
precedes it: the greedy capture of `(.+);` on a line `L`. -/
def beforeLastSemi (L : List Char) : Option (List Char) :=
  match L.reverse.dropWhile (fun c => c ≠ ';') with
  | [] => none
  | _ :: rest => if rest.isEmpty then none else some rest.reverse

/-- Backtracking over the length of the `\s+` match, longest first:
`captureAfterWs k t` tries `\s+` of length `k, k-1, …, 1` against `t` and
returns the first `(.+);` capture that succeeds. -/
def captureAfterWs : Nat → List Char → Option (List Char)
  | 0, _ => none
  | k + 1, t =>
    match beforeLastSemi (lineOf (t.drop (k + 1))) with
    | some cap => some cap
    | none => captureAfterWs k t

/-- The capture of `\s+(.+);` against `t`, with the greedy/backtracking
behaviour of the JavaScript engine. -/
def submatch (t : List Char) : Option (List Char) :=
  captureAfterWs (t.takeWhile isJsWs).length t

/-- First-match scan of `pat` followed by `\s+(.+);`: the engine tries every
position left to right, and a position where the literal matches but the rest
fails is simply skipped. -/
def scanCap (pat : List Char) : List Char → Option (List Char)
  | [] => none
  | c :: l =>
    if pat.isPrefixOf (c :: l) then
      match submatch ((c :: l).drop pat.length) with
      | some cap => some cap
      | none => scanCap pat l
    else scanCap pat l

def snPat : List Char := ['s', 'e', 'r', 'v', 'e', 'r', '_', 'n', 'a', 'm', 'e']

def rootPat : List Char := ['r', 'o', 'o', 't']

def lisPat : List Char := ['l', 'i', 's', 't', 'e', 'n']

/-- All captures of `/\s*listen\s+(\d+)/g` in order: every occurrence of the
literal `listen` followed by at least one whitespace character and then a
maximal nonempty digit run contributes that digit run.  `matchAll` resumes
scanning after the digits; resuming at the next character instead is
equivalent, because no character of `isten` + whitespace + digits can begin a
new occurrence of the literal `listen`, so no overlapping match exists. -/
def scanListens : List Char → List (List Char)
  | [] => []
  | c :: l =>
    if lisPat.isPrefixOf (c :: l) then
      let t := l.drop 5
      let w := t.takeWhile isJsWs
      let rest := t.drop w.length
      let d := rest.takeWhile Char.isDigit
      if w.isEmpty || d.isEmpty then scanListens l
      else d :: scanListens l
    else scanListens l

/-- Decimal value of a digit run, as `+m[1]` computes it. -/
def digitsToNat (l : List Char) : Nat :=
  l.foldl (fun n c => n * 10 + (c.toNat - 48)) 0

/-- Substring test (`String.prototype.includes`-style), used to state facts
about the generated texts. -/
def containsSub (pat : List Char) : List Char → Bool
  | [] => pat.isEmpty
  | c :: l => pat.isPrefixOf (c :: l) || containsSub pat l

/-- JavaScript `String.prototype.split(" ")`: split on every single space,
keeping empty pieces; the split of `""` is `[""]`. -/
def splitSp : List Char → List (List Char)
  | [] => [[]]
  | c :: l =>
    if c = ' ' then [] :: splitSp l
    else
      match splitSp l with
      | [] => [[c]]
      | w :: ws => (c :: w) :: ws

/-- The three derived fields `NginxServer.reload` extracts from a
configuration file's text (`hosts`, `port`, `root`, with the source's
field names). -/
structure ParsedSite where
  hosts : List (List Char)
  port : List Nat
  root : List Char
deriving DecidableEq, Repr

/-- `NginxServer.reload`, lines 80–88: hostnames from the first
`server_name` directive split on single spaces (the empty string when there
is none), ports from every `listen` directive, the root from the first
`root` directive (empty when there is none). -/
def parseSite (content : List Char) : ParsedSite :=
  { hosts := splitSp ((scanCap snPat content).getD [])
    port := (scanListens content).map digitsToNat
    root := (scanCap rootPat content).getD [] }

example : parseSite "server \x7b\n  listen 80;\n  server_name blog.test;\n  root /var/www/html/blog;\n\x7d".data
    = { hosts := ["blog.test".data], port := [80], root := "/var/www/html/blog".data } := by
  decide

example : parseSite "listen 80;\nlisten 443;".data
    = { hosts := ["".data], port := [80, 443], root := [] } := by
  decide

example : parseSite "server_name a b;".data
    = { hosts := ["a".data, "b".data], port := [], root := [] } := by
  decide

/-! ## The creation flow of the `newSiteButton` press handler (lines 301–393) -/

/-- JavaScript `GetSubstitution`: how a replacement string is interpreted,
for a pattern with no capture groups.  `$$` is a dollar, `$&` the matched
text, a dollar + backquote the subject before the match, `$` + apostrophe the
subject after it; any other `$` is literal. -/
def expandRepl (matched before after : List Char) : List Char → List Char
  | [] => []
  | [c] => if c = '$' then ['$'] else [c]
  | c :: d :: r =>
    if c = '$' then
      if d = '$' then '$' :: expandRepl matched before after r
      else if d = '&' then matched ++ expandRepl matched before after r
      else if d.toNat = 96 then before ++ expandRepl matched before after r
      else if d.toNat = 39 then after ++ expandRepl matched before after r
      else '$' :: expandRepl matched before after (d :: r)
    else c :: expandRepl matched before after (d :: r)

/-- `subject.replace(/pat/g, repl)` for a literal nonempty pattern
`p0 :: pt`: left-to-right, non-overlapping, replacements never rescanned,
`repl` expanded per `expandRepl` at each match.  `pre` is the subject before
the current position; the fuel (one unit per consumed subject character)
keeps the recursion structural so that the kernel can evaluate it. -/
def jsReplaceAllAux (p0 : Char) (pt repl : List Char) : Nat → List Char → List Char → List Char
  | 0, _, rest => rest
  | _ + 1, _, [] => []
  | fuel + 1, pre, c :: l =>
    if (p0 :: pt).isPrefixOf (c :: l) then
      expandRepl (p0 :: pt) pre (l.drop pt.length) repl
        ++ jsReplaceAllAux p0 pt repl fuel (pre ++ p0 :: pt) (l.drop pt.length)
    else c :: jsReplaceAllAux p0 pt repl fuel (pre ++ [c]) l

def jsReplaceAll (s pat repl : String) : String :=
  match pat.data with
  | [] => s
  | p0 :: pt => String.mk (jsReplaceAllAux p0 pt repl.data s.data.length [] s.data)

/-- `data.root.replace(/\s/g, "_")` (line 313). -/
def wsToUnderscore (l : List Char) : List Char :=
  l.map (fun c => if isJsWs c then '_' else c)

/-- JavaScript `String.prototype.trim`. -/
def jsTrim (s : String) : String :=
  String.mk (((s.data.dropWhile isJsWs).reverse.dropWhile isJsWs).reverse)

/-- A parsed YAML creation request; `port` is a YAML number, the string
fields default to the empty string (falsy) when left blank. -/
structure SiteCreationRequest where
  name : String
  host : String
  port : Nat
  root : String
  index : String
  php : String
  proxyUrl : String
deriving DecidableEq, Repr

/-- Lines 312–317: substitute `\x7bname\x7d` then `\x7bhost\x7d` (two sequential global
replaces), turn whitespace into underscores, and if the resulting path
already exists append `/` + name. -/
def resolveRoot (fs : List String) (req : SiteCreationRequest) : String :=
  let r1 := jsReplaceAll req.root "\x7bname\x7d" req.name
  let r2 := jsReplaceAll r1 "\x7bhost\x7d" req.host
  let r3 := String.mk (wsToUnderscore r2.data)
  if fs.contains r3 then r3 ++ "/" ++ req.name else r3

/-- Line 319: `data.index?.trim() || (data.php ? "index.php" : "index.html")`. -/
def resolveIndex (req : SiteCreationRequest) : String :=
  let t := jsTrim req.index
  if t ≠ "" then t else if req.php ≠ "" then "index.php" else "index.html"

/-- `Array.prototype.join("\n")`. -/
def joinNl : List String → String
  | [] => ""
  | [x] => x
  | x :: xs => x ++ "\n" ++ joinNl xs

/-- The reverse-proxy location block entry (lines 348–359), present only when
`proxyUrl` is truthy. -/
def proxyBlock (proxyUrl : String) : String :=
  joinNl
    ["  location / \x7b",
     "    proxy_set_header X-Forwarded-For $remote_addr;",
     "    proxy_set_header Host $http_host;",
     "    proxy_set_header Upgrade $http_upgrade;",
     "    proxy_set_header Connection \"upgrade\";",
     "    proxy_pass       " ++ proxyUrl ++ ";",
     "  \x7d",
     ""]

/-- The PHP-FPM location block entry (lines 360–375), present only when `php`
is truthy. -/
def phpBlock (php index : String) : String :=
  joinNl
    ["  location ~ \\.php \x7b",
     "    fastcgi_pass unix:/run/php/" ++ php ++ "-fpm.sock;",
     "    fastcgi_split_path_info ^((?U).+\\.php)(/?.+)$;",
     "    fastcgi_param SCRIPT_FILENAME $document_root$fastcgi_script_name;",
     "    fastcgi_param PATH_INFO $fastcgi_path_info;",
     "    fastcgi_param PATH_TRANSLATED $document_root$fastcgi_path_info;",
     "    fastcgi_read_timeout 600s;",
     "    fastcgi_send_timeout 600s;",
     "    fastcgi_index " ++ (if index.endsWith ".php" then index else "index.php") ++ ";",
     "    include /etc/nginx/fastcgi_params;",
     "  \x7d",
     ""]

/-- The configuration text written to `sitesAvailable/name` (lines 337–377):
the entry list, with the two optional blocks filtered out when `null`,
joined by newlines. -/
def configText (req : SiteCreationRequest) (root index : String) : String :=
  joinNl
    (["server \x7b",
      "  listen " ++ toString req.port ++ ";",
      "  server_name " ++ req.host ++ ";",
      "  root " ++ root ++ ";",
      "  index " ++ index ++ ";",
      "",
      "  location / \x7b",
      "    try_files $uri $uri/ =404;",
      "  \x7d",
      ""]
      ++ (if req.proxyUrl ≠ "" then [proxyBlock req.proxyUrl] else [])
      ++ (if req.php ≠ "" then [phpBlock req.php index] else [])
      ++ ["\x7d"])

/-- The scaffold page written to `root/index` (lines 322–335); the final
entry is the `phpinfo()` fragment when `php` is truthy and the resolved index
ends in `.php`, and the empty string otherwise. -/
def scaffoldHtml (req : SiteCreationRequest) (index : String) : String :=
  joinNl
    ["<!DOCTYPE html>",
     "<html>",
     "<head>",
     "  <title>" ++ req.name ++ "</title>",
     "</head>",
     "<body>",
     "  <h1>" ++ req.name ++ "</h1>",
     "</body>",
     "</html>",
     if req.php ≠ "" && index.endsWith ".php" then "<?php phpinfo(); ?>" else ""]

/-- The filesystem effects the creation flow and the toggles perform. -/
inductive FsOp where
  | mkdirp (path : String)
  | writeFile (path : String) (content : String)
  | symlink (target path : String)
  | unlink (path : String)
  | readFile (path : String)
deriving DecidableEq, Repr

instance {e a : Type} [DecidableEq e] [DecidableEq a] : DecidableEq (Except e a) := fun x y =>
  match x, y with
  | .ok v, .ok w =>
    if h : v = w then .isTrue (congrArg Except.ok h)
    else .isFalse (fun hh => h (Except.ok.inj hh))
  | .error v, .error w =>
    if h : v = w then .isTrue (congrArg Except.error h)
    else .isFalse (fun hh => h (Except.error.inj hh))
  | .ok _, .error _ => .isFalse (fun hh => Except.noConfusion hh)
  | .error _, .ok _ => .isFalse (fun hh => Except.noConfusion hh)

/-- The two errors the handler can throw before touching the disk. -/
inductive CreateErr where
  | missingFields
  | siteExists
deriving DecidableEq, Repr

/-- The exact `Error` messages of lines 305 and 309. -/
def errMessage : CreateErr → String
  | .missingFields => "Missing one or more required fields"
  | .siteExists => "Site already exists"

/-- What a successful creation produced. -/
structure NewSite where
  root : String
  index : String
  config : String
deriving DecidableEq, Repr

/-- The whole `newSiteButton` press handler after YAML parsing
(lines 304–377): validation, duplicate check, root/index resolution, then
the three disk writes, returned in program order.  `fs` is the set of paths
`existsSync` reports, `sitesAvailable` the configured directory. -/
def createSite (fs : List String) (sitesAvailable : String) (req : SiteCreationRequest) :
    List FsOp × Except CreateErr NewSite :=
  if req.name = "" ∨ req.host = "" ∨ req.port = 0 ∨ req.root = "" then
    ([], .error .missingFields)
  else if fs.contains (sitesAvailable ++ "/" ++ req.name) then
    ([], .error .siteExists)
  else
    let root := resolveRoot fs req
    let index := resolveIndex req
    let cfg := configText req root index
    ([.mkdirp root,
      .writeFile (root ++ "/" ++ index) (scaffoldHtml req index),
      .writeFile (sitesAvailable ++ "/" ++ req.name) cfg],
     .ok { root := root, index := index, config := cfg })

/-- The effect of the performed operations on the set of existing paths.
`mkdirSync \x7b recursive \x7d` also creates missing parent directories; they are
not tracked here because no `existsSync` call in the modelled flows ever
queries a strict ancestor of a created path. -/
def applyOp (fs : List String) : FsOp → List String
  | .mkdirp p => fs ++ [p]
  | .writeFile p _ => fs ++ [p]
  | .symlink _ p => fs ++ [p]
  | .unlink p => fs.filter (fun q => q ≠ p)
  | .readFile _ => fs

def applyOps (fs : List String) (ops : List FsOp) : List String :=
  ops.foldl applyOp fs

/-! ## `NginxServer` records and the enable/disable toggles (lines 53–115) -/

/-- An in-memory site record, with the source's field names. -/
structure NginxServer where
  name : String
  hosts : List String
  port : List Nat
  root : String
  enabled : Bool
deriving DecidableEq, Repr

/-- `NginxServer.enable` (lines 92–98): no-op when already enabled,
otherwise symlink `sitesAvailable/name` into `sitesEnabled` and set the flag. -/
def enable (sitesEnabled sitesAvailable : String) (s : NginxServer) :
    NginxServer × List FsOp :=
  if s.enabled then (s, [])
  else ({ s with enabled := true },
        [.symlink (sitesAvailable ++ "/" ++ s.name) (sitesEnabled ++ "/" ++ s.name)])

/-- `NginxServer.disable` (lines 100–106): no-op when already disabled,
otherwise remove the link and clear the flag. -/
def disable (sitesEnabled : String) (s : NginxServer) : NginxServer × List FsOp :=
  if !s.enabled then (s, [])
  else ({ s with enabled := false }, [.unlink (sitesEnabled ++ "/" ++ s.name)])

/-- `NginxServer.toggle` (lines 108–114). -/
def toggle (sitesEnabled sitesAvailable : String) (s : NginxServer) :
    NginxServer × List FsOp :=
  if s.enabled then disable sitesEnabled s else enable sitesEnabled sitesAvailable s

/-- The `detailsToggle` press handler (lines 532–536): toggle the selected
record in place; the list is re-rendered without any reordering. -/
def toggleAt (sitesEnabled sitesAvailable : String) :
    List NginxServer → Nat → List NginxServer
  | [], _ => []
  | s :: l, 0 => (toggle sitesEnabled sitesAvailable s).1 :: l
  | s :: l, i + 1 => s :: toggleAt sitesEnabled sitesAvailable l i

/-- Lexicographic (code-point) comparison of names, the ascending order the
claim's "names non-decreasing" refers to. -/
def lexLe : List Char → List Char → Bool
  | [], _ => true
  | _ :: _, [] => false
  | a :: as, b :: bs =>
    if a = b then lexLe as bs else decide (a.toNat < b.toNat)

/-- For all `i < j`, if record `i` is disabled then record `j` is disabled:
each record is checked against its whole tail. -/
def pairwiseEnabledFirst : List NginxServer → Bool
  | [] => true
  | a :: l => (l.all fun b => a.enabled || !b.enabled) && pairwiseEnabledFirst l

/-- Within any maximal run of records with equal `enabled` flag, names are
non-decreasing: every adjacent equal-flag pair is ordered (an adjacent
equal-flag pair lies in one maximal run, and a run is sorted iff its
adjacent pairs are). -/
def runsNondecreasing : List NginxServer → Bool
  | [] => true
  | [_] => true
  | a :: b :: l =>
    ((a.enabled != b.enabled) || lexLe a.name.data b.name.data)
      && runsNondecreasing (b :: l)

/-- The ordering property claimed for the registry. -/
def registryInv (l : List NginxServer) : Prop :=
  pairwiseEnabledFirst l = true ∧ runsNondecreasing l = true

instance (l : List NginxServer) : Decidable (registryInv l) :=
  inferInstanceAs (Decidable (pairwiseEnabledFirst l = true ∧ runsNondecreasing l = true))

/-! ## The three editor cancellation checks -/

/-- Line 294: the new-site flow aborts when the edited draft equals the
pre-edit snapshot up to `trim`. -/
def newSiteAborted (snapshot edited : String) : Bool :=
  jsTrim edited == jsTrim snapshot

/-- Lines 497–501: the record-edit flow aborts exactly when the edited text
equals the pre-edit file content. -/
def detailsEditAborted (snapshot edited : String) : Bool :=
  edited == snapshot

/-- Lines 206–228: the config-edit flow applies the edit iff the text
changed, so it aborts exactly on equality. -/
def configEditAborted (snapshot edited : String) : Bool :=
  edited == snapshot

/-! ## Concrete fixtures -/

def sitesAvailDir : String := "/etc/nginx/sites-available"

/-- The creation request of the round-trip scenario. -/
def blogReq : SiteCreationRequest :=
  { name := "blog", host := "blog.test", port := 80,
    root := "/var/www/html/\x7bname\x7d", index := "", php := "", proxyUrl := "" }

/-- The configuration text the generator emits for `blogReq` on an empty
filesystem. -/
def blogConfig : String :=
  configText blogReq (resolveRoot [] blogReq) (resolveIndex blogReq)

/-- The blog request with its `host` left blank. -/
def blogReqNoHost : SiteCreationRequest :=
  { blogReq with host := "" }

def regA : NginxServer := { name := "a", hosts := [], port := [], root := "", enabled := true }

def regB : NginxServer := { name := "b", hosts := [], port := [], root := "", enabled := true }

/-! ## C2 — the blog round-trip scenario -/

/-- C2 (amended): creating `blogReq` succeeds and emits a configuration that
contains the lines `listen 80;`, `server_name blog.test;`,
`root /var/www/html/blog;` and `index index.html;`; parsing that text back
yields `hosts = ["blog.test"]`, `ports = [80]` and
`root = "/var/www/html/blog"` — without the trailing semicolon, since the
greedy `(.+)` of `/root\s+(.+);/` backtracks to leave the final `;` to the
literal. -/
theorem c2_blog_round_trip :
    (createSite [] sitesAvailDir blogReq).2
        = .ok { root := "/var/www/html/blog", index := "index.html", config := blogConfig } ∧
    (containsSub "listen 80;".data blogConfig.data = true ∧
     containsSub "server_name blog.test;".data blogConfig.data = true ∧
     containsSub "root /var/www/html/blog;".data blogConfig.data = true ∧
     containsSub "index index.html;".data blogConfig.data = true) ∧
    parseSite blogConfig.data
        = { hosts := ["blog.test".data], port := [80], root := "/var/www/html/blog".data } := by
  decide

/-- C2 counterexample: the claim states the parsed root is
`"/var/www/html/blog;"` with the trailing semicolon included; the parser in
fact strips it. -/
theorem c2_counterexample :
    (parseSite blogConfig.data).root ≠ "/var/www/html/blog;".data ∧
    (parseSite blogConfig.data).root = "/var/www/html/blog".data := by
  decide

/-! ## C5 — validation failure -/

/-- C5 (amended): whenever `name`, `host`, `port` or `root` is missing
(falsy), the creation flow fails before any filesystem operation with the
single generic message `Missing one or more required fields`; the message
does not name the missing field. -/
theorem c5_validation_no_writes (fs : List String) (sa : String)
    (req : SiteCreationRequest)
    (h : req.name = "" ∨ req.host = "" ∨ req.port = 0 ∨ req.root = "") :
    createSite fs sa req = ([], .error .missingFields) ∧
    errMessage .missingFields = "Missing one or more required fields" :=
  ⟨by unfold createSite; rw [if_pos h], rfl⟩

theorem c5_validation_no_writes_witness :
    createSite [] sitesAvailDir blogReqNoHost = ([], .error .missingFields) :=
  (c5_validation_no_writes [] sitesAvailDir blogReqNoHost (by decide)).1

/-- C5 counterexample: for a request whose only missing field is `host`, the
error message does not contain `host`, so it does not list the first missing
field as claimed. -/
theorem c5_counterexample :
    (createSite [] sitesAvailDir blogReqNoHost).2 = .error .missingFields ∧
    containsSub "host".data (errMessage .missingFields).data = false := by
  decide

/-! ## C6 — duplicate site names -/

/-- C6 (amended): for a creation request with all required fields present
whose name is already a file of `sitesAvailable`, creation fails with
`Site already exists` and performs no filesystem operation; in particular,
creating the same valid request twice fails the second time. -/
theorem c6_duplicate_rejected (fs : List String) (sa : String)
    (req : SiteCreationRequest)
    (hv : ¬(req.name = "" ∨ req.host = "" ∨ req.port = 0 ∨ req.root = "")) :
    ((sa ++ "/" ++ req.name) ∈ fs →
      createSite fs sa req = ([], .error .siteExists)) ∧
    ((sa ++ "/" ++ req.name) ∉ fs →
      createSite (applyOps fs (createSite fs sa req).1) sa req
        = ([], .error .siteExists)) := by
  constructor
  · intro hc
    simp [createSite, hv, hc]
  · intro hc
    have hops : (createSite fs sa req).1 =
        [.mkdirp (resolveRoot fs req),
         .writeFile (resolveRoot fs req ++ "/" ++ resolveIndex req)
           (scaffoldHtml req (resolveIndex req)),
         .writeFile (sa ++ "/" ++ req.name)
           (configText req (resolveRoot fs req) (resolveIndex req))] := by
      simp [createSite, hv, hc]
    rw [hops]
    have hmem : (sa ++ "/" ++ req.name) ∈ applyOps fs
        [.mkdirp (resolveRoot fs req),
         .writeFile (resolveRoot fs req ++ "/" ++ resolveIndex req)
           (scaffoldHtml req (resolveIndex req)),
         .writeFile (sa ++ "/" ++ req.name)
           (configText req (resolveRoot fs req) (resolveIndex req))] := by
      simp [applyOps, applyOp]
    simp [createSite, hv, hmem]

theorem c6_duplicate_rejected_witness :
    createSite (applyOps [] (createSite [] sitesAvailDir blogReq).1) sitesAvailDir blogReq
      = ([], .error .siteExists) :=
  (c6_duplicate_rejected [] sitesAvailDir blogReq (by decide)).2 (by decide)

/-- C6 counterexample: a request whose name already exists but whose `host`
is empty fails with the missing-fields error, not `AlreadyExistsError` — the
validation check of line 304 runs before the existence check of line 308. -/
theorem c6_counterexample :
    (sitesAvailDir ++ "/" ++ blogReqNoHost.name) ∈ [sitesAvailDir ++ "/blog"] ∧
    createSite [sitesAvailDir ++ "/blog"] sitesAvailDir blogReqNoHost
        = ([], .error .missingFields) ∧
    CreateErr.missingFields ≠ CreateErr.siteExists := by
  decide

/-! ## C8 — editor cancellation detection -/

/-- C8 (amended): the record-edit and config-edit flows abort exactly when
the edited text equals the pre-edit snapshot, but the new-site flow compares
the two texts after `trim`, so it also aborts when they differ only in
leading or trailing whitespace. -/
theorem c8_cancellation_checks (snapshot edited : String) :
    (detailsEditAborted snapshot edited = true ↔ edited = snapshot) ∧
    (configEditAborted snapshot edited = true ↔ edited = snapshot) ∧
    (newSiteAborted snapshot edited = true ↔ jsTrim edited = jsTrim snapshot) := by
  refine ⟨?_, ?_, ?_⟩ <;>
    simp [detailsEditAborted, configEditAborted, newSiteAborted]

theorem c8_cancellation_checks_witness :
    newSiteAborted "x" "x\n" = true :=
  (c8_cancellation_checks "x" "x\n").2.2.mpr (by decide)

/-- C8 counterexample: in the new-site flow an edit that only appends a
newline is treated as a cancellation although the returned content is not
exactly equal to the snapshot. -/
theorem c8_counterexample :
    newSiteAborted "x" "x\n" = true ∧ "x\n" ≠ "x" := by
  decide

/-! ## C10 — enable/disable frame -/

/-- C10: `enable` and `disable` change only the record's `enabled` flag and
touch only the same-named link in `sitesEnabled` (no read or write of the
configuration file in `sitesAvailable`); when the record is already in the
requested state they change nothing at all. -/
theorem c10_toggle_frame (se sa : String) (s : NginxServer) :
    ((enable se sa s).1.name = s.name ∧ (enable se sa s).1.hosts = s.hosts ∧
     (enable se sa s).1.port = s.port ∧ (enable se sa s).1.root = s.root ∧
     (enable se sa s).1.enabled = true) ∧
    ((disable se s).1.name = s.name ∧ (disable se s).1.hosts = s.hosts ∧
     (disable se s).1.port = s.port ∧ (disable se s).1.root = s.root ∧
     (disable se s).1.enabled = false) ∧
    (∀ op ∈ (enable se sa s).2,
      op = .symlink (sa ++ "/" ++ s.name) (se ++ "/" ++ s.name)) ∧
    (∀ op ∈ (disable se s).2, op = .unlink (se ++ "/" ++ s.name)) ∧
    (s.enabled = true → enable se sa s = (s, [])) ∧
    (s.enabled = false → disable se s = (s, [])) := by
  cases hs : s.enabled <;> simp [enable, disable, hs]

theorem c10_toggle_frame_witness :
    enable "/etc/nginx/sites-enabled" sitesAvailDir regA = (regA, []) :=
  (c10_toggle_frame "/etc/nginx/sites-enabled" sitesAvailDir regA).2.2.2.2.1 rfl

/-! ## C1 — registry ordering -/

lemma toggle_fst_name (se sa : String) (s : NginxServer) :
    (toggle se sa s).1.name = s.name := by
  cases hs : s.enabled <;> simp [toggle, enable, disable, hs]

/-- C1 (amended): pressing the toggle never reorders the registry — the name
sequence is unchanged and every record other than the selected one is
untouched, the selected one only flipped; re-sorting happens only in the
create path, so the ordering invariant is not maintained across
enable/disable. -/
theorem c1_toggle_no_reorder (se sa : String) (l : List NginxServer) (i : Nat) :
    (toggleAt se sa l i).map NginxServer.name = l.map NginxServer.name ∧
    (∀ j, j ≠ i → (toggleAt se sa l i)[j]? = l[j]?) ∧
    (∀ s, l[i]? = some s → (toggleAt se sa l i)[i]? = some (toggle se sa s).1) := by
  induction l generalizing i with
  | nil => cases i <;> simp [toggleAt]
  | cons a l ih =>
    cases i with
    | zero =>
      refine ⟨?_, ?_, ?_⟩
      · simp [toggleAt, toggle_fst_name]
      · intro j hj
        cases j with
        | zero => exact absurd rfl hj
        | succ j => simp [toggleAt]
      · intro s hs
        simp only [List.getElem?_cons_zero, Option.some.injEq] at hs
        simp [toggleAt, hs]
    | succ i =>
      refine ⟨?_, ?_, ?_⟩
      · simp [toggleAt, (ih i).1]
      · intro j hj
        cases j with
        | zero => simp [toggleAt]
        | succ j => simpa [toggleAt] using (ih i).2.1 j (by omega)
      · intro s hs
        simpa [toggleAt] using (ih i).2.2 s (by simpa using hs)

theorem c1_toggle_no_reorder_witness :
    (toggleAt "/se" "/sa" [regA, regB] 0)[1]? = some regB :=
  (c1_toggle_no_reorder "/se" "/sa" [regA, regB] 0).2.1 1 (by decide)

/-- C1 counterexample: a registry of two enabled records `a`, `b` satisfies
the ordering invariant; disabling `a` (toggle on index 0) leaves a disabled
record ahead of an enabled one, so the invariant fails after a disable. -/
theorem c1_counterexample :
    registryInv [regA, regB] ∧
    ¬ registryInv (toggleAt "/se" "/sa" [regA, regB] 0) := by
  decide

/-! ## C4 — absent `server_name` directive -/

lemma scanCap_eq_none_of_not_sub (pat : List Char) :
    ∀ l : List Char, containsSub pat l = false → scanCap pat l = none := by
  intro l
  induction l with
  | nil => intro _; rfl
  | cons c l ih =>
    intro h
    rw [containsSub, Bool.or_eq_false_iff] at h
    simp [scanCap, h.1, ih h.2]

/-- C4 (amended): when the configuration text has no `server_name`
occurrence at all, the match is `null`, `(null || "")` is the empty string,
and `"".split(" ")` is `[""]` — so `hosts` is the one-element sequence
containing the empty string, not the empty sequence; no error occurs. -/
theorem c4_no_server_name (content : List Char)
    (h : containsSub snPat content = false) :
    (parseSite content).hosts = [[]] := by
  simp [parseSite, scanCap_eq_none_of_not_sub snPat content h, splitSp]

theorem c4_no_server_name_witness :
    (parseSite "listen 80;".data).hosts = [[]] :=
  c4_no_server_name "listen 80;".data (by decide)

/-- C4 counterexample: a text with no `server_name` directive parses to
`hosts = [""]`, which is not the empty sequence. -/
theorem c4_counterexample :
    containsSub snPat "listen 80;".data = false ∧
    (parseSite "listen 80;".data).hosts ≠ [] ∧
    (parseSite "listen 80;".data).hosts = [[]] := by
  decide

/-! ## C7 — root resolution -/

def namePat : List Char := "\x7bname\x7d".data

def hostPat : List Char := "\x7bhost\x7d".data

/-- Modelled from the claim's words: every occurrence of the literal
placeholders `\x7bname\x7d` and `\x7bhost\x7d` in the root template is replaced — in a
single simultaneous pass over the template — by the request's name and host
respectively.  Fuel keeps the recursion structural. -/
def substituteTemplate (name host : List Char) : Nat → List Char → List Char
  | 0, l => l
  | _ + 1, [] => []
  | fuel + 1, c :: l =>
    if namePat.isPrefixOf (c :: l) then
      name ++ substituteTemplate name host fuel (l.drop 5)
    else if hostPat.isPrefixOf (c :: l) then
      host ++ substituteTemplate name host fuel (l.drop 5)
    else c :: substituteTemplate name host fuel l

/-- Modelled from the claim's words: placeholder substitution on the
template, then whitespace to underscores, then the collision suffix. -/
def resolveRootSpecSim (fs : List String) (req : SiteCreationRequest) : String :=
  let r := String.mk (wsToUnderscore
    (substituteTemplate req.name.data req.host.data req.root.data.length req.root.data))
  if fs.contains r then r ++ "/" ++ req.name else r

/-- A request whose name recreates a placeholder: the template `\x7b\x7bname\x7d\x7d`
contains `\x7bname\x7d` but no `\x7bhost\x7d`. -/
def reqC7 : SiteCreationRequest :=
  { name := "host", host := "myhost.example", port := 80,
    root := "\x7b\x7bname\x7d\x7d", index := "", php := "", proxyUrl := "" }

/-- C7 counterexample: replacing only the template's occurrences yields
`\x7bhost\x7d`, but the code's second pass replaces the `\x7bhost\x7d` that the first
substitution created, yielding the host value instead. -/
theorem c7_counterexample :
    resolveRootSpecSim [] reqC7 = "\x7bhost\x7d" ∧
    resolveRoot [] reqC7 = "myhost.example" ∧
    resolveRoot [] reqC7 ≠ resolveRootSpecSim [] reqC7 := by
  decide

/-- Literal global substitution of the nonempty pattern `p0 :: pt`: left to
right, non-overlapping, the replacement taken verbatim and never rescanned. -/
def replaceAllLit (p0 : Char) (pt repl : List Char) : Nat → List Char → List Char
  | 0, l => l
  | _ + 1, [] => []
  | fuel + 1, c :: l =>
    if (p0 :: pt).isPrefixOf (c :: l) then
      repl ++ replaceAllLit p0 pt repl fuel (l.drop pt.length)
    else c :: replaceAllLit p0 pt repl fuel l

def litReplaceAll (s pat repl : String) : String :=
  match pat.data with
  | [] => s
  | p0 :: pt => String.mk (replaceAllLit p0 pt repl.data s.data.length s.data)

/-- Modelled from the amended claim: two sequential literal global
substitutions — every `\x7bname\x7d` first, then every `\x7bhost\x7d` in the result —
then whitespace to underscores, then the collision suffix. -/
def resolveRootSeqSpec (fs : List String) (req : SiteCreationRequest) : String :=
  let r1 := litReplaceAll req.root "\x7bname\x7d" req.name
  let r2 := litReplaceAll r1 "\x7bhost\x7d" req.host
  let r3 := String.mk (wsToUnderscore r2.data)
  if fs.contains r3 then r3 ++ "/" ++ req.name else r3

lemma expandRepl_no_dollar (matched before after : List Char) :
    ∀ r : List Char, '$' ∉ r → expandRepl matched before after r = r := by
  intro r
  induction r with
  | nil => intro _; rfl
  | cons c r ih =>
    intro h
    have hc : c ≠ '$' := fun hc => h (hc ▸ List.mem_cons_self c r)
    cases r with
    | nil => simp [expandRepl, hc]
    | cons d r' =>
      simp [expandRepl, hc, ih fun hm => h (List.mem_cons_of_mem c hm)]

lemma jsReplaceAllAux_no_dollar (p0 : Char) (pt repl : List Char)
    (h : '$' ∉ repl) :
    ∀ (fuel : Nat) (pre l : List Char),
      jsReplaceAllAux p0 pt repl fuel pre l = replaceAllLit p0 pt repl fuel l := by
  intro fuel
  induction fuel with
  | zero => intro pre l; rfl
  | succ fuel ih =>
    intro pre l
    cases l with
    | nil => rfl
    | cons c l =>
      by_cases hp : (p0 :: pt).isPrefixOf (c :: l) = true
      · simp [jsReplaceAllAux, replaceAllLit, hp,
          expandRepl_no_dollar (p0 :: pt) pre (l.drop pt.length) repl h, ih]
      · simp [jsReplaceAllAux, replaceAllLit, hp, ih]

/-- C7 (amended): the code substitutes in two sequential passes — all
`\x7bname\x7d` first, then all `\x7bhost\x7d` in the resulting string — each a
JavaScript `replace`, so `$`-patterns in the inserted values are
interpreted; when name and host contain no `$`, both passes are literal
text substitution, followed by whitespace-to-underscore and the
existing-path collision suffix. -/
theorem c7_sequential_literal (fs : List String) (req : SiteCreationRequest)
    (hn : '$' ∉ req.name.data) (hh : '$' ∉ req.host.data) :
    resolveRoot fs req = resolveRootSeqSpec fs req := by
  have h1 : jsReplaceAll req.root "\x7bname\x7d" req.name
      = litReplaceAll req.root "\x7bname\x7d" req.name := by
    simp only [jsReplaceAll, litReplaceAll]
    exact congrArg String.mk
      (jsReplaceAllAux_no_dollar _ _ _ hn req.root.data.length [] req.root.data)
  have h2 : ∀ s : String, jsReplaceAll s "\x7bhost\x7d" req.host
      = litReplaceAll s "\x7bhost\x7d" req.host := by
    intro s
    simp only [jsReplaceAll, litReplaceAll]
    exact congrArg String.mk
      (jsReplaceAllAux_no_dollar _ _ _ hh s.data.length [] s.data)
  simp only [resolveRoot, resolveRootSeqSpec, h1, h2]

theorem c7_sequential_literal_witness :
    resolveRoot [] blogReq = resolveRootSeqSpec [] blogReq :=
  c7_sequential_literal [] blogReq (by decide) (by decide)

/-! ## Decimal digits of `Nat.repr` -/

def digitChars : List Char := ['0', '1', '2', '3', '4', '5', '6', '7', '8', '9']

lemma digitChar_mem (m : Nat) (h : m < 10) : Nat.digitChar m ∈ digitChars := by
  interval_cases m <;> decide

lemma digitChar_val (m : Nat) (h : m < 10) : (Nat.digitChar m).toNat - 48 = m := by
  interval_cases m <;> decide

lemma digitChars_props :
    ∀ c ∈ digitChars,
      c.isDigit = true ∧ isJsWs c = false ∧ isLineTerm c = false ∧
      c ≠ 'l' ∧ c ≠ 's' ∧ c ≠ 'r' ∧ c ≠ ';' ∧ c ≠ ' ' := by
  decide

lemma toDigitsCore_shift (b : Nat) :
    ∀ (fuel n : Nat) (ds : List Char),
      Nat.toDigitsCore b fuel n ds = Nat.toDigitsCore b fuel n [] ++ ds := by
  intro fuel
  induction fuel with
  | zero => intro n ds; rfl
  | succ fuel ih =>
    intro n ds
    simp only [Nat.toDigitsCore]
    by_cases h : n / b = 0
    · simp [h]
    · rw [if_neg h, if_neg h, ih (n / b) (Nat.digitChar (n % b) :: ds),
        ih (n / b) [Nat.digitChar (n % b)]]
      simp

lemma digitsToNat_snoc (a : List Char) (d : Char) :
    digitsToNat (a ++ [d]) = digitsToNat a * 10 + (d.toNat - 48) := by
  simp [digitsToNat, List.foldl_append]

lemma toDigitsCore_spec :
    ∀ fuel n : Nat, n < fuel →
      digitsToNat (Nat.toDigitsCore 10 fuel n []) = n ∧
      (∀ c ∈ Nat.toDigitsCore 10 fuel n [], c ∈ digitChars) ∧
      Nat.toDigitsCore 10 fuel n [] ≠ [] := by
  intro fuel
  induction fuel with
  | zero => intro n h; exact absurd h (Nat.not_lt_zero n)
  | succ fuel ih =>
    intro n h
    have hm : n % 10 < 10 := Nat.mod_lt n (by norm_num)
    simp only [Nat.toDigitsCore]
    by_cases h0 : n / 10 = 0
    · rw [if_pos h0]
      have hn : n < 10 := by omega
      refine ⟨?_, ?_, by simp⟩
      · show digitsToNat [Nat.digitChar (n % 10)] = n
        rw [show digitsToNat [Nat.digitChar (n % 10)]
            = (Nat.digitChar (n % 10)).toNat - 48 from by simp [digitsToNat]]
        rw [digitChar_val (n % 10) hm]
        exact Nat.mod_eq_of_lt hn
      · intro c hc
        rw [List.mem_singleton] at hc
        exact hc ▸ digitChar_mem (n % 10) hm
    · rw [if_neg h0, toDigitsCore_shift]
      have hpos : 0 < n := by
        rcases Nat.eq_zero_or_pos n with h1 | h1
        · exact absurd (by rw [h1]) h0
        · exact h1
      have hrec := ih (n / 10) (by
        have := Nat.div_lt_self hpos (by norm_num : 1 < 10)
        omega)
      refine ⟨?_, ?_, by simp⟩
      · rw [digitsToNat_snoc, hrec.1, digitChar_val (n % 10) hm]
        have := Nat.div_add_mod n 10
        omega
      · intro c hc
        rcases List.mem_append.mp hc with hc | hc
        · exact hrec.2.1 c hc
        · rw [List.mem_singleton] at hc
          exact hc ▸ digitChar_mem (n % 10) hm

lemma repr_data_spec (n : Nat) :
    digitsToNat (Nat.repr n).data = n ∧
    (∀ c ∈ (Nat.repr n).data, c ∈ digitChars) ∧ (Nat.repr n).data ≠ [] := by
  have h : (Nat.repr n).data = Nat.toDigitsCore 10 (n + 1) n [] := rfl
  rw [h]
  exact toDigitsCore_spec (n + 1) n (Nat.lt_succ_self n)

/-! ## C9 — listen directive scanning -/

lemma isPrefixOf_cons_ne (p : Char) (pt : List Char) (c : Char) (l : List Char)
    (h : c ≠ p) : (p :: pt).isPrefixOf (c :: l) = false := by
  simp [List.isPrefixOf, Ne.symm h]

lemma scanListens_skip (s rest : List Char) (h : ∀ c ∈ s, c ≠ 'l') :
    scanListens (s ++ rest) = scanListens rest := by
  induction s with
  | nil => rfl
  | cons c s ih =>
    have hp : lisPat.isPrefixOf (c :: (s ++ rest)) = false :=
      isPrefixOf_cons_ne 'l' ['i', 's', 't', 'e', 'n'] c (s ++ rest)
        (h c (List.mem_cons_self c s))
    rw [List.cons_append]
    simp only [scanListens, hp, Bool.false_eq_true, if_false]
    exact ih fun c hc => h c (List.mem_cons_of_mem _ hc)

lemma takeWhile_all_stop {p : Char → Bool} :
    ∀ (l : List Char) (b : Char) (r : List Char),
      (∀ c ∈ l, p c = true) → p b = false →
      (l ++ b :: r).takeWhile p = l := by
  intro l
  induction l with
  | nil => intro b r _ hb; simp [List.takeWhile_cons, hb]
  | cons c l ih =>
    intro b r h hb
    rw [List.cons_append, List.takeWhile_cons, h c (List.mem_cons_self c l)]
    rw [ih b r (fun c hc => h c (List.mem_cons_of_mem _ hc)) hb]
    simp

/-- The scan at a matching `listen` occurrence: the digit run is captured
and scanning continues after it. -/
lemma scanListens_at_match (d r : List Char) (hdig : ∀ c ∈ d, c ∈ digitChars)
    (hd : d ≠ []) :
    scanListens ('l' :: 'i' :: 's' :: 't' :: 'e' :: 'n' :: ' ' :: (d ++ (';' :: r)))
      = d :: scanListens r := by
  cases d with
  | nil => exact absurd rfl hd
  | cons c0 d' =>
    have hc0 := digitChars_props c0 (hdig c0 (List.mem_cons_self c0 d'))
    have hmatch :
        lisPat.isPrefixOf
          ('l' :: 'i' :: 's' :: 't' :: 'e' :: 'n' :: ' ' :: (c0 :: d' ++ ';' :: r))
          = true := by
      simp [lisPat, List.isPrefixOf]
    rw [scanListens, hmatch, if_pos rfl]
    have hw : (' ' :: c0 :: (d' ++ ';' :: r)).takeWhile isJsWs = [' '] := by
      rw [List.takeWhile_cons, show isJsWs ' ' = true from by decide,
        List.takeWhile_cons, hc0.2.1]
      simp
    have hdig' : (c0 :: (d' ++ ';' :: r)).takeWhile Char.isDigit = c0 :: d' :=
      takeWhile_all_stop (c0 :: d') ';' r
        (fun c hc => (digitChars_props c (hdig c hc)).1) (by decide)
    simp only [List.drop_succ_cons, List.drop_zero, hw, List.length_cons,
      List.length_nil, hdig', List.cons_append]
    rw [if_neg (by simp)]
    congr 1
    have assoc :
        'i' :: 's' :: 't' :: 'e' :: 'n' :: ' ' :: c0 :: (d' ++ ';' :: r)
          = (('i' :: 's' :: 't' :: 'e' :: 'n' :: ' ' :: c0 :: d') ++ [';']) ++ r := by
      simp
    rw [assoc, scanListens_skip]
    intro c hc
    rcases List.mem_append.mp hc with h1 | h1
    · simp only [List.mem_cons] at h1
      rcases h1 with h | h | h | h | h | h | h | h
      · exact h ▸ (by decide)
      · exact h ▸ (by decide)
      · exact h ▸ (by decide)
      · exact h ▸ (by decide)
      · exact h ▸ (by decide)
      · exact h ▸ (by decide)
      · exact h ▸ hc0.2.2.2.1
      · exact (digitChars_props c (hdig c (List.mem_cons_of_mem c0 h))).2.2.2.1
    · rw [List.mem_singleton] at h1
      exact h1 ▸ (by decide)

/-- One listen line followed by `;` and arbitrary rest: the digit run is
captured and scanning continues after the semicolon. -/
lemma scanListens_line (d r : List Char) (hdig : ∀ c ∈ d, c ∈ digitChars)
    (hd : d ≠ []) :
    scanListens ("  listen ".data ++ (d ++ (';' :: r))) = d :: scanListens r := by
  have hsp : ∀ l : List Char, lisPat.isPrefixOf (' ' :: l) = false :=
    fun l => isPrefixOf_cons_ne 'l' ['i', 's', 't', 'e', 'n'] ' ' l (by decide)
  rw [show "  listen ".data ++ (d ++ (';' :: r))
      = ' ' :: (' ' :: ('l' :: 'i' :: 's' :: 't' :: 'e' :: 'n' :: ' '
        :: (d ++ (';' :: r)))) from rfl]
  rw [scanListens, hsp]
  rw [if_neg (by simp)]
  rw [scanListens, hsp]
  rw [if_neg (by simp)]
  exact scanListens_at_match d r hdig hd

/-- A file consisting of one `  listen p;` line per entry of `ps`. -/
def listenFile (ps : List Nat) : String :=
  joinNl (ps.map fun p => "  listen " ++ toString p ++ ";")

lemma scanListens_listenFile : ∀ ps : List Nat,
    scanListens (listenFile ps).data = ps.map fun p => (Nat.repr p).data := by
  intro ps
  induction ps with
  | nil => rfl
  | cons p ps ih =>
    have hrepr := repr_data_spec p
    cases ps with
    | nil =>
      have e : (listenFile [p]).data
          = "  listen ".data ++ ((Nat.repr p).data ++ (';' :: [])) := by
        show ("  listen " ++ toString p ++ ";").data = _
        simp [List.append_assoc]
        rfl
      rw [e, scanListens_line _ _ hrepr.2.1 hrepr.2.2]
      rfl
    | cons q ps' =>
      have e : (listenFile (p :: q :: ps')).data
          = "  listen ".data
            ++ ((Nat.repr p).data ++ (';' :: ('\n' :: (listenFile (q :: ps')).data))) := by
        show (("  listen " ++ toString p ++ ";") ++ "\n" ++ listenFile (q :: ps')).data = _
        simp [List.append_assoc]
        rfl
      rw [e, scanListens_line _ _ hrepr.2.1 hrepr.2.2]
      rw [show ('\n' :: (listenFile (q :: ps')).data)
          = ['\n'] ++ (listenFile (q :: ps')).data from rfl]
      rw [scanListens_skip ['\n'] _ (by decide), ih]
      rfl

/-- C9: port parsing matches every `listen` directive, in file order with
duplicates preserved — a file of listen lines for an arbitrary port list
parses back to exactly that list; concretely, `listen 80;` with
`listen 443;` yields `[80, 443]`, a non-numeric `listen foo;` is silently
dropped, and only the leading numeric token of a value is taken. -/
theorem c9_listen_ports :
    (∀ ps : List Nat, (parseSite (listenFile ps).data).port = ps) ∧
    (parseSite "server \x7b\n  listen 80;\n  listen 443;\n  server_name x;\n\x7d".data).port
        = [80, 443] ∧
    (parseSite "  listen foo;\n  listen 80;\n  listen 127.0.0.1:8080;".data).port
        = [80, 127] := by
  refine ⟨?_, by decide, by decide⟩
  intro ps
  simp only [parseSite, scanListens_listenFile ps, List.map_map]
  have h : ∀ p ∈ ps, (digitsToNat ∘ fun p => (Nat.repr p).data) p = id p :=
    fun p _ => (repr_data_spec p).1
  rw [List.map_congr_left h, List.map_id]

theorem c9_listen_ports_witness :
    (parseSite (listenFile [443, 80, 80]).data).port = [443, 80, 80] :=
  c9_listen_ports.1 [443, 80, 80]

/-! ## Scanner traversal lemmas for C3 -/

lemma submatch_eq_none (t : List Char) (h : t.takeWhile isJsWs = []) :
    submatch t = none := by
  simp [submatch, h, captureAfterWs]

/-- If a pattern without `;` matches at a position whose suffix is a run of
non-whitespace characters up to a `;`, then the text right after the matched
literal starts with a non-whitespace character — so `\s+` cannot match. -/
lemma after_match_drop_nonws (p0 : Char) (pt : List Char) (c : Char)
    (s' r' : List Char) (hpat : ';' ∉ p0 :: pt)
    (hs : ∀ x ∈ s', isJsWs x = false)
    (hp : (p0 :: pt).isPrefixOf (c :: (s' ++ ';' :: r')) = true) :
    ((s' ++ ';' :: r').drop pt.length).takeWhile isJsWs = [] := by
  have hpre : (p0 :: pt) <+: (c :: (s' ++ ';' :: r')) :=
    List.isPrefixOf_iff_prefix.mp hp
  have hlen : pt.length ≤ s'.length := by
    by_contra hgt
    push_neg at hgt
    apply hpat
    rw [List.prefix_iff_eq_take.mp hpre]
    rw [show c :: (s' ++ ';' :: r') = (c :: s') ++ ';' :: r' from rfl]
    rw [List.take_append_eq_append_take]
    apply List.mem_append_right
    have h1 : 1 ≤ (p0 :: pt).length - (c :: s').length := by
      simp only [List.length_cons]
      omega
    rcases Nat.exists_eq_add_of_le h1 with ⟨m, hm⟩
    rw [hm, Nat.add_comm 1 m, List.take_succ_cons]
    exact List.mem_cons_self _ _
  rw [List.drop_append_of_le_length hlen]
  cases hd : s'.drop pt.length with
  | nil => simp [show isJsWs ';' = false from by decide]
  | cons x u =>
    have hx : x ∈ s' := List.mem_of_mem_drop (hd ▸ List.mem_cons_self x u)
    rw [List.cons_append, List.takeWhile_cons, hs x hx]
    simp

lemma scanCap_cons_skip_step (pat : List Char) (c : Char) (l : List Char)
    (h : pat.isPrefixOf (c :: l) = false) :
    scanCap pat (c :: l) = scanCap pat l := by
  simp [scanCap, h]

lemma scanCap_skip_ne (p0 : Char) (pt : List Char) (s rest : List Char)
    (h : ∀ c ∈ s, c ≠ p0) :
    scanCap (p0 :: pt) (s ++ rest) = scanCap (p0 :: pt) rest := by
  induction s with
  | nil => rfl
  | cons c s' ih =>
    rw [List.cons_append,
      scanCap_cons_skip_step _ _ _
        (isPrefixOf_cons_ne p0 pt c _ (h c (List.mem_cons_self c s')))]
    exact ih fun c hc => h c (List.mem_cons_of_mem _ hc)

lemma scanCap_skip_nonws (p0 : Char) (pt : List Char) (s r' : List Char)
    (hpat : ';' ∉ p0 :: pt) (hs : ∀ c ∈ s, isJsWs c = false) :
    scanCap (p0 :: pt) (s ++ (';' :: r')) = scanCap (p0 :: pt) (';' :: r') := by
  induction s with
  | nil => rfl
  | cons c s' ih =>
    rw [List.cons_append]
    have ih' := ih fun c hc => hs c (List.mem_cons_of_mem _ hc)
    by_cases hp : (p0 :: pt).isPrefixOf (c :: (s' ++ ';' :: r')) = true
    · have hsub : submatch ((c :: (s' ++ ';' :: r')).drop (p0 :: pt).length) = none := by
        rw [List.length_cons, List.drop_succ_cons]
        exact submatch_eq_none _
          (after_match_drop_nonws p0 pt c s' r' hpat
            (fun x hx => hs x (List.mem_cons_of_mem _ hx)) hp)
      rw [scanCap, if_pos hp, hsub]
      exact ih'
    · rw [Bool.not_eq_true] at hp
      rw [scanCap_cons_skip_step _ _ _ hp]
      exact ih'

lemma scanListens_cons_skip_step (c : Char) (l : List Char)
    (h : lisPat.isPrefixOf (c :: l) = false) :
    scanListens (c :: l) = scanListens l := by
  simp [scanListens, h]

lemma scanListens_skip_nonws (s r' : List Char)
    (hs : ∀ c ∈ s, isJsWs c = false) :
    scanListens (s ++ (';' :: r')) = scanListens (';' :: r') := by
  induction s with
  | nil => rfl
  | cons c s' ih =>
    rw [List.cons_append]
    have ih' := ih fun c hc => hs c (List.mem_cons_of_mem _ hc)
    by_cases hp : lisPat.isPrefixOf (c :: (s' ++ ';' :: r')) = true
    · have hw : ((s' ++ ';' :: r').drop 5).takeWhile isJsWs = [] :=
        after_match_drop_nonws 'l' ['i', 's', 't', 'e', 'n'] c s' r' (by decide)
          (fun x hx => hs x (List.mem_cons_of_mem _ hx)) hp
      rw [scanListens, if_pos hp]
      simp only [hw, List.isEmpty_nil, Bool.true_or, if_true]
      exact ih'
    · rw [Bool.not_eq_true] at hp
      rw [scanListens_cons_skip_step _ _ hp]
      exact ih'

lemma ws_of_lineTerm (c : Char) (h : isLineTerm c = true) : isJsWs c = true := by
  simp only [isLineTerm, decide_eq_true_eq, List.mem_cons, List.not_mem_nil,
    or_false] at h
  simp only [isJsWs, decide_eq_true_eq]
  rcases h with h | h | h | h <;> rw [h] <;> decide

lemma notLT_of_notWs (c : Char) (h : isJsWs c = false) : (!isLineTerm c) = true := by
  cases hlt : isLineTerm c
  · rfl
  · rw [ws_of_lineTerm c hlt] at h
    cases h

lemma beforeLastSemi_append_semi (H : List Char) (hH : H ≠ []) :
    beforeLastSemi (H ++ [';']) = some H := by
  unfold beforeLastSemi
  rw [List.reverse_append]
  rw [show ([';'] : List Char).reverse ++ H.reverse = ';' :: H.reverse from by simp]
  rw [List.dropWhile_cons_of_neg (by simp)]
  simp [hH]

/-- The capture of `\s+(.+);` right after a directive keyword: one space,
then a nonempty whitespace-free value, then `;` and a newline — the capture
is exactly the value. -/
lemma submatch_sp (H X : List Char) (hH : H ≠ [])
    (hHw : ∀ c ∈ H, isJsWs c = false) :
    submatch (' ' :: (H ++ (';' :: ('\n' :: X)))) = some H := by
  cases H with
  | nil => exact absurd rfl hH
  | cons h0 H' =>
    have h0w : isJsWs h0 = false := hHw h0 (List.mem_cons_self h0 H')
    have hws : (' ' :: ((h0 :: H') ++ (';' :: ('\n' :: X)))).takeWhile isJsWs
        = [' '] := by
      rw [List.takeWhile_cons, show isJsWs ' ' = true from by decide]
      rw [List.cons_append, List.takeWhile_cons, h0w]
      simp
    rw [submatch, hws]
    show captureAfterWs 1 _ = some (h0 :: H')
    rw [captureAfterWs]
    have hline : lineOf ((' ' :: ((h0 :: H') ++ (';' :: ('\n' :: X)))).drop 1)
        = (h0 :: H') ++ [';'] := by
      rw [List.drop_succ_cons, List.drop_zero, lineOf]
      rw [show (h0 :: H') ++ (';' :: ('\n' :: X))
          = ((h0 :: H') ++ [';']) ++ ('\n' :: X) from by simp]
      apply takeWhile_all_stop
      · intro c hc
        rcases List.mem_append.mp hc with hc | hc
        · exact notLT_of_notWs c (hHw c hc)
        · rw [List.mem_singleton] at hc
          exact hc ▸ (by decide)
      · decide
    rw [hline, beforeLastSemi_append_semi (h0 :: H') (by simp)]

lemma splitSp_no_space (l : List Char) (h : ∀ c ∈ l, c ≠ ' ') :
    splitSp l = [l] := by
  induction l with
  | nil => rfl
  | cons c l ih =>
    rw [splitSp, if_neg (h c (List.mem_cons_self c l)),
      ih fun c hc => h c (List.mem_cons_of_mem _ hc)]

/-! ## Facts about the resolved root and index -/

lemma str_data_ne_nil {s : String} (h : s ≠ "") : s.data ≠ [] := by
  intro hd
  apply h
  cases s with
  | mk l =>
    simp only [String.data] at hd
    rw [hd]

lemma str_ne_empty_of_data_ne_nil {s : String} (h : s.data ≠ []) : s ≠ "" := by
  intro he
  rw [he] at h
  exact h rfl

lemma wsToUnderscore_no_ws (l : List Char) :
    ∀ c ∈ wsToUnderscore l, isJsWs c = false := by
  intro c hc
  rcases List.mem_map.mp hc with ⟨a, _, ha⟩
  by_cases h : isJsWs a = true
  · rw [← ha, h]
    rfl
  · rw [Bool.not_eq_true] at h
    rw [← ha, h]
    simpa using h

lemma resolveRoot_no_ws (fs : List String) (req : SiteCreationRequest)
    (hwname : ∀ c ∈ req.name.data, isJsWs c = false) :
    ∀ c ∈ (resolveRoot fs req).data, isJsWs c = false := by
  intro c hc
  rw [resolveRoot] at hc
  set r3 := String.mk (wsToUnderscore
    (jsReplaceAll (jsReplaceAll req.root "\x7bname\x7d" req.name) "\x7bhost\x7d" req.host).data)
    with hr3
  by_cases hfs : fs.contains r3 = true
  · rw [if_pos hfs] at hc
    simp only [String.data_append] at hc
    rcases List.mem_append.mp hc with hc | hc
    · rcases List.mem_append.mp hc with hc | hc
      · exact wsToUnderscore_no_ws _ c hc
      · rw [List.mem_singleton] at hc
        rw [hc]
        rfl
    · exact hwname c hc
  · rw [if_neg hfs] at hc
    exact wsToUnderscore_no_ws _ c hc

lemma jsReplaceAll_no_dollar_eq (s pat repl : String) (h : '$' ∉ repl.data) :
    jsReplaceAll s pat repl = litReplaceAll s pat repl := by
  rw [jsReplaceAll, litReplaceAll]
  cases hp : pat.data with
  | nil => rfl
  | cons p0 pt =>
    exact congrArg String.mk (jsReplaceAllAux_no_dollar p0 pt repl.data h _ _ _)

lemma replaceAllLit_ne_nil (p0 : Char) (pt repl : List Char) (hrepl : repl ≠ []) :
    ∀ (fuel : Nat) (l : List Char), l ≠ [] → replaceAllLit p0 pt repl fuel l ≠ [] := by
  intro fuel l hl
  cases fuel with
  | zero => exact hl
  | succ fuel =>
    cases l with
    | nil => exact absurd rfl hl
    | cons c l' =>
      by_cases hp : (p0 :: pt).isPrefixOf (c :: l') = true
      · simp only [replaceAllLit, hp, if_true]
        exact List.append_ne_nil_of_left_ne_nil hrepl _
      · rw [Bool.not_eq_true] at hp
        simp [replaceAllLit, hp]

lemma litReplaceAll_ne_empty (s pat repl : String) (hs : s ≠ "")
    (hrepl : repl ≠ "") : litReplaceAll s pat repl ≠ "" := by
  rw [litReplaceAll]
  cases hp : pat.data with
  | nil => exact hs
  | cons p0 pt =>
    apply str_ne_empty_of_data_ne_nil
    exact replaceAllLit_ne_nil p0 pt repl.data (str_data_ne_nil hrepl) _ _
      (str_data_ne_nil hs)

lemma resolveRoot_ne_nil (fs : List String) (req : SiteCreationRequest)
    (hdn : '$' ∉ req.name.data) (hdh : '$' ∉ req.host.data)
    (hname : req.name ≠ "") (hhost : req.host ≠ "") (hroot : req.root ≠ "") :
    (resolveRoot fs req).data ≠ [] := by
  rw [resolveRoot]
  have h1 : jsReplaceAll req.root "\x7bname\x7d" req.name ≠ "" := by
    rw [jsReplaceAll_no_dollar_eq _ _ _ hdn]
    exact litReplaceAll_ne_empty _ _ _ hroot hname
  have h2 : jsReplaceAll (jsReplaceAll req.root "\x7bname\x7d" req.name)
      "\x7bhost\x7d" req.host ≠ "" := by
    rw [jsReplaceAll_no_dollar_eq _ _ _ hdh]
    exact litReplaceAll_ne_empty _ _ _ h1 hhost
  have h3 : wsToUnderscore (jsReplaceAll (jsReplaceAll req.root "\x7bname\x7d" req.name)
      "\x7bhost\x7d" req.host).data ≠ [] := by
    intro hw
    apply str_data_ne_nil h2
    rwa [wsToUnderscore, List.map_eq_nil_iff] at hw
  by_cases hfs : fs.contains (String.mk (wsToUnderscore
      (jsReplaceAll (jsReplaceAll req.root "\x7bname\x7d" req.name)
        "\x7bhost\x7d" req.host).data)) = true
  · rw [if_pos hfs]
    simp only [String.data_append]
    exact List.append_ne_nil_of_left_ne_nil
      (List.append_ne_nil_of_left_ne_nil h3 _) _
  · rw [if_neg hfs]
    exact h3

lemma resolveIndex_no_ws (req : SiteCreationRequest) (hphp : req.php = "")
    (hwidx : ∀ c ∈ (jsTrim req.index).data, isJsWs c = false) :
    ∀ c ∈ (resolveIndex req).data, isJsWs c = false := by
  rw [resolveIndex]
  by_cases ht : jsTrim req.index = ""
  · rw [if_neg (by simpa using ht), hphp, if_neg (by simp)]
    intro c hc
    fin_cases hc <;> rfl
  · rw [if_pos ht]
    exact hwidx

/-! ## The generated configuration text, as a character list -/

/-- The generated configuration (no php, no proxy) around the four variable
parts: port digits `P`, host `H`, resolved root `Rr`, resolved index `I`. -/
def configData (P H Rr I : List Char) : List Char :=
  's' :: 'e' :: 'r' :: 'v' :: 'e' :: 'r' :: ' ' :: '\x7b' :: '\n'
    :: ' ' :: ' ' :: 'l' :: 'i' :: 's' :: 't' :: 'e' :: 'n' :: ' '
    :: (P ++ (';'
    :: '\n' :: ' ' :: ' ' :: 's' :: 'e' :: 'r' :: 'v' :: 'e' :: 'r'
    :: '_' :: 'n' :: 'a' :: 'm' :: 'e' :: ' '
    :: (H ++ (';'
    :: '\n' :: ' ' :: ' ' :: 'r' :: 'o' :: 'o' :: 't' :: ' '
    :: (Rr ++ (';'
    :: '\n' :: ' ' :: ' ' :: 'i' :: 'n' :: 'd' :: 'e' :: 'x' :: ' '
    :: (I ++ (';'
    :: '\n' :: '\n' :: ' ' :: ' ' :: 'l' :: 'o' :: 'c' :: 'a' :: 't'
    :: 'i' :: 'o' :: 'n' :: ' ' :: '/' :: ' ' :: '\x7b' :: '\n'
    :: ' ' :: ' ' :: ' ' :: ' ' :: 't' :: 'r' :: 'y' :: '_' :: 'f'
    :: 'i' :: 'l' :: 'e' :: 's' :: ' ' :: '$' :: 'u' :: 'r' :: 'i'
    :: ' ' :: '$' :: 'u' :: 'r' :: 'i' :: '/' :: ' ' :: '=' :: '4'
    :: '0' :: '4' :: ';' :: '\n' :: ' ' :: ' ' :: '\x7d' :: '\n'
    :: '\n' :: '\x7d' :: []))))))))

lemma configText_data_shape (req : SiteCreationRequest) (root index : String)
    (hphp : req.php = "") (hproxy : req.proxyUrl = "") :
    (configText req root index).data
      = configData (Nat.repr req.port).data req.host.data root.data index.data := by
  have h : configText req root index
      = joinNl
          ["server \x7b",
           "  listen " ++ toString req.port ++ ";",
           "  server_name " ++ req.host ++ ";",
           "  root " ++ root ++ ";",
           "  index " ++ index ++ ";",
           "",
           "  location / \x7b",
           "    try_files $uri $uri/ =404;",
           "  \x7d",
           "",
           "\x7d"] := by
    rw [configText, hphp, hproxy]
    simp
  rw [h]
  simp only [joinNl, String.data_append, configData, List.append_assoc,
    List.cons_append, List.nil_append]
  rfl

/-! ## The three scans over the generated text -/

lemma scanCap_cons_match_step (pat : List Char) (c : Char) (l : List Char)
    (cap : List Char) (hp : pat.isPrefixOf (c :: l) = true)
    (hs : submatch ((c :: l).drop pat.length) = some cap) :
    scanCap pat (c :: l) = some cap := by
  rw [scanCap, if_pos hp, hs]

lemma scanCap_sn_skip_digits (P rest : List Char)
    (hP : ∀ c ∈ P, c ∈ digitChars) :
    scanCap snPat (P ++ rest) = scanCap snPat rest :=
  scanCap_skip_ne 's' ['e', 'r', 'v', 'e', 'r', '_', 'n', 'a', 'm', 'e'] P rest
    fun c hc => (digitChars_props c (hP c hc)).2.2.2.2.1

lemma scanCap_root_skip_digits (P rest : List Char)
    (hP : ∀ c ∈ P, c ∈ digitChars) :
    scanCap rootPat (P ++ rest) = scanCap rootPat rest :=
  scanCap_skip_ne 'r' ['o', 'o', 't'] P rest
    fun c hc => (digitChars_props c (hP c hc)).2.2.2.2.2.1

lemma scanCap_root_skip_host (H r' : List Char)
    (hHw : ∀ c ∈ H, isJsWs c = false) :
    scanCap rootPat (H ++ (';' :: r')) = scanCap rootPat (';' :: r') :=
  scanCap_skip_nonws 'r' ['o', 'o', 't'] H r' (by decide) hHw

lemma scanCap_sn_match (H X : List Char) (hH : H ≠ [])
    (hHw : ∀ c ∈ H, isJsWs c = false) :
    scanCap snPat
      ('s' :: 'e' :: 'r' :: 'v' :: 'e' :: 'r' :: '_' :: 'n' :: 'a' :: 'm' :: 'e'
        :: ' ' :: (H ++ (';' :: ('\n' :: X)))) = some H :=
  scanCap_cons_match_step snPat 's' _ H rfl (submatch_sp H X hH hHw)

lemma scanCap_root_match (Rr X : List Char) (hR : Rr ≠ [])
    (hRw : ∀ c ∈ Rr, isJsWs c = false) :
    scanCap rootPat
      ('r' :: 'o' :: 'o' :: 't' :: ' ' :: (Rr ++ (';' :: ('\n' :: X))))
      = some Rr :=
  scanCap_cons_match_step rootPat 'r' _ Rr rfl (submatch_sp Rr X hR hRw)

/-- `clash pat v` holds when the pattern mismatches `v` within `v` itself,
so `pat` cannot match at this position whatever follows `v`. -/
def clash : List Char → List Char → Bool
  | [], _ => false
  | _ :: _, [] => false
  | a :: as, b :: bs => a != b || clash as bs

/-- No occurrence of `pat` can start inside `s`, whatever follows. -/
def noStartIn (pat : List Char) : List Char → Bool
  | [] => true
  | c :: u => clash pat (c :: u) && noStartIn pat u

lemma clash_no_match_here :
    ∀ (pat v rest : List Char), clash pat v = true →
      pat.isPrefixOf (v ++ rest) = false := by
  intro pat
  induction pat with
  | nil => intro v rest h; cases v <;> simp [clash] at h
  | cons a as ih =>
    intro v rest h
    cases v with
    | nil => simp [clash] at h
    | cons b bs =>
      simp only [clash] at h
      rw [Bool.or_eq_true] at h
      rcases h with h1 | h1
      · have hb : (a == b) = false := by
          simpa [bne_iff_ne, beq_eq_false_iff_ne] using h1
        simp [List.isPrefixOf, hb]
      · simp [List.isPrefixOf, ih bs rest h1]

lemma scanCap_skip_startIn (pat : List Char) :
    ∀ (s rest : List Char), noStartIn pat s = true →
      scanCap pat (s ++ rest) = scanCap pat rest := by
  intro s
  induction s with
  | nil => intro rest _; rfl
  | cons c s' ih =>
    intro rest h
    simp only [noStartIn, Bool.and_eq_true] at h
    exact Eq.trans
      (scanCap_cons_skip_step pat c (s' ++ rest)
        (clash_no_match_here pat (c :: s') rest h.1))
      (ih rest h.2)

lemma scanListens_skip_startIn :
    ∀ (s rest : List Char), noStartIn lisPat s = true →
      scanListens (s ++ rest) = scanListens rest := by
  intro s
  induction s with
  | nil => intro rest _; rfl
  | cons c s' ih =>
    intro rest h
    simp only [noStartIn, Bool.and_eq_true] at h
    exact Eq.trans
      (scanListens_cons_skip_step c (s' ++ rest)
        (clash_no_match_here lisPat (c :: s') rest h.1))
      (ih rest h.2)

lemma scanCap_sn_configData (P H Rr I : List Char)
    (hP : ∀ c ∈ P, c ∈ digitChars)
    (hH : H ≠ []) (hHw : ∀ c ∈ H, isJsWs c = false) :
    scanCap snPat (configData P H Rr I) = some H := by
  refine Eq.trans (scanCap_skip_startIn snPat
    ['s', 'e', 'r', 'v', 'e', 'r', ' ', '\x7b', '\n', ' ', ' ',
     'l', 'i', 's', 't', 'e', 'n', ' '] _ (by decide)) ?_
  refine Eq.trans (scanCap_sn_skip_digits P _ hP) ?_
  refine Eq.trans (scanCap_skip_startIn snPat [';', '\n', ' ', ' '] _ (by decide)) ?_
  exact scanCap_sn_match H _ hH hHw

lemma scanCap_root_configData (P H Rr I : List Char)
    (hP : ∀ c ∈ P, c ∈ digitChars)
    (hHw : ∀ c ∈ H, isJsWs c = false)
    (hR : Rr ≠ []) (hRw : ∀ c ∈ Rr, isJsWs c = false) :
    scanCap rootPat (configData P H Rr I) = some Rr := by
  refine Eq.trans (scanCap_skip_startIn rootPat
    ['s', 'e', 'r', 'v', 'e', 'r', ' ', '\x7b', '\n', ' ', ' ',
     'l', 'i', 's', 't', 'e', 'n', ' '] _ (by decide)) ?_
  refine Eq.trans (scanCap_root_skip_digits P _ hP) ?_
  refine Eq.trans (scanCap_skip_startIn rootPat
    [';', '\n', ' ', ' ', 's', 'e', 'r', 'v', 'e', 'r', '_', 'n', 'a', 'm', 'e', ' ']
    _ (by decide)) ?_
  refine Eq.trans (scanCap_root_skip_host H _ hHw) ?_
  refine Eq.trans (scanCap_skip_startIn rootPat [';', '\n', ' ', ' '] _ (by decide)) ?_
  exact scanCap_root_match Rr _ hR hRw

lemma scanListens_configData (P H Rr I : List Char)
    (hP : ∀ c ∈ P, c ∈ digitChars) (hPne : P ≠ [])
    (hHw : ∀ c ∈ H, isJsWs c = false)
    (hRw : ∀ c ∈ Rr, isJsWs c = false)
    (hIw : ∀ c ∈ I, isJsWs c = false) :
    scanListens (configData P H Rr I) = [P] := by
  refine Eq.trans (scanListens_skip_startIn
    ['s', 'e', 'r', 'v', 'e', 'r', ' ', '\x7b', '\n', ' ', ' '] _ (by decide)) ?_
  refine Eq.trans (scanListens_at_match P _ hP hPne) ?_
  have hrest : scanListens ('\n' :: ' ' :: ' ' :: 's' :: 'e' :: 'r' :: 'v' :: 'e'
      :: 'r' :: '_' :: 'n' :: 'a' :: 'm' :: 'e' :: ' '
      :: (H ++ (';' :: '\n' :: ' ' :: ' ' :: 'r' :: 'o' :: 'o' :: 't' :: ' '
      :: (Rr ++ (';' :: '\n' :: ' ' :: ' ' :: 'i' :: 'n' :: 'd' :: 'e' :: 'x' :: ' '
      :: (I ++ (';'
      :: '\n' :: '\n' :: ' ' :: ' ' :: 'l' :: 'o' :: 'c' :: 'a' :: 't'
      :: 'i' :: 'o' :: 'n' :: ' ' :: '/' :: ' ' :: '\x7b' :: '\n'
      :: ' ' :: ' ' :: ' ' :: ' ' :: 't' :: 'r' :: 'y' :: '_' :: 'f'
      :: 'i' :: 'l' :: 'e' :: 's' :: ' ' :: '$' :: 'u' :: 'r' :: 'i'
      :: ' ' :: '$' :: 'u' :: 'r' :: 'i' :: '/' :: ' ' :: '=' :: '4'
      :: '0' :: '4' :: ';' :: '\n' :: ' ' :: ' ' :: '\x7d' :: '\n'
      :: '\n' :: '\x7d' :: []))))))) = [] := by
    refine Eq.trans (scanListens_skip_startIn
      ['\n', ' ', ' ', 's', 'e', 'r', 'v', 'e', 'r', '_', 'n', 'a', 'm', 'e', ' ']
      _ (by decide)) ?_
    refine Eq.trans (scanListens_skip_nonws H _ hHw) ?_
    refine Eq.trans (scanListens_skip_startIn
      [';', '\n', ' ', ' ', 'r', 'o', 'o', 't', ' '] _ (by decide)) ?_
    refine Eq.trans (scanListens_skip_nonws Rr _ hRw) ?_
    refine Eq.trans (scanListens_skip_startIn
      [';', '\n', ' ', ' ', 'i', 'n', 'd', 'e', 'x', ' '] _ (by decide)) ?_
    refine Eq.trans (scanListens_skip_nonws I _ hIw) ?_
    decide
  rw [hrest]

/-! ## C3 — round-tripping a creation request through the parser -/

/-- C3 (amended): for a valid creation request without php or proxy whose
name, host, trimmed index contain no whitespace and whose name and host
contain no `$`, parsing the generated configuration yields exactly
`hosts = [host]`, `ports = [port]` and `root = resolvedRoot`. -/
theorem c3_generator_parser_round_trip (fs : List String)
    (req : SiteCreationRequest)
    (hname : req.name ≠ "") (hhost : req.host ≠ "") (_hport : req.port ≠ 0)
    (hroot : req.root ≠ "") (hphp : req.php = "") (hproxy : req.proxyUrl = "")
    (hwname : ∀ c ∈ req.name.data, isJsWs c = false)
    (hwhost : ∀ c ∈ req.host.data, isJsWs c = false)
    (hwidx : ∀ c ∈ (jsTrim req.index).data, isJsWs c = false)
    (hdn : '$' ∉ req.name.data) (hdh : '$' ∉ req.host.data) :
    parseSite (configText req (resolveRoot fs req) (resolveIndex req)).data
      = { hosts := [req.host.data], port := [req.port],
          root := (resolveRoot fs req).data } := by
  have hP : ∀ c ∈ (Nat.repr req.port).data, c ∈ digitChars := (repr_data_spec req.port).2.1
  have hPne : (Nat.repr req.port).data ≠ [] := (repr_data_spec req.port).2.2
  have hH : req.host.data ≠ [] := str_data_ne_nil hhost
  have hR : (resolveRoot fs req).data ≠ [] :=
    resolveRoot_ne_nil fs req hdn hdh hname hhost hroot
  have hRw : ∀ c ∈ (resolveRoot fs req).data, isJsWs c = false :=
    resolveRoot_no_ws fs req hwname
  have hIw : ∀ c ∈ (resolveIndex req).data, isJsWs c = false :=
    resolveIndex_no_ws req hphp hwidx
  rw [configText_data_shape req _ _ hphp hproxy]
  rw [parseSite]
  rw [scanCap_sn_configData _ _ _ _ hP hH hwhost]
  rw [scanListens_configData _ _ _ _ hP hPne hwhost hRw hIw]
  rw [scanCap_root_configData _ _ _ _ hP hwhost hR hRw]
  simp only [Option.getD_some, List.map_cons, List.map_nil]
  rw [splitSp_no_space req.host.data
    (fun c hc hsp => by rw [hsp] at hc; exact absurd (hwhost ' ' hc) (by decide)),
    (repr_data_spec req.port).1]

theorem c3_generator_parser_round_trip_witness :
    parseSite (configText blogReq (resolveRoot [] blogReq) (resolveIndex blogReq)).data
      = { hosts := [blogReq.host.data], port := [blogReq.port],
          root := (resolveRoot [] blogReq).data } :=
  c3_generator_parser_round_trip [] blogReq (by decide) (by decide) (by decide)
    (by decide) (by decide) (by decide) (by decide) (by decide) (by decide)
    (by decide) (by decide)

/-- A creation request whose host field holds two space-separated
hostnames, as the draft template itself suggests
(`host: example.com www.example.com`). -/
def reqC3 : SiteCreationRequest :=
  { name := "blog", host := "a b", port := 80, root := "/x",
    index := "", php := "", proxyUrl := "" }

/-- C3 counterexample: for the valid request with `host = "a b"` the parsed
hosts are `["a", "b"]`, not the claimed one-element sequence `[host]`. -/
theorem c3_counterexample :
    (parseSite (configText reqC3 (resolveRoot [] reqC3) (resolveIndex reqC3)).data).hosts
        = ["a".data, "b".data] ∧
    (parseSite (configText reqC3 (resolveRoot [] reqC3) (resolveIndex reqC3)).data).hosts
        ≠ [reqC3.host.data] := by
  decide

end Ngx
